import Mathlib

/-!
Verification development for the remote software installer
(`auto_software_installer.py`): a shallow embedding of its data model,
selection/validation logic, command synthesis and installation
orchestration, together with theorems about the specified properties.

Python strings are modelled as Lean `String`s; the Python string
operations used by the source (`str.strip`, `str.split(",")`,
`str.isdigit`, `int(...)` on digit strings, `" ".join`) are embedded as
structurally recursive functions over `List Char` so that every
definition evaluates by kernel reduction.  Python `None`/JSON dynamic
values are embedded as an explicit `JValue` type, exceptions as
`Except`/error inductives, and the remote SSH side effects
(`connect`/`exec_command`/`close`) as an explicit oracle plus an event
trace.
-/

set_option maxRecDepth 16384

/-- Recognises Python whitespace as stripped by `str.strip()`
(ASCII whitespace; the source never feeds non-ASCII whitespace). -/
def pyIsSpace (c : Char) : Bool :=
  c == ' ' || c == '\t' || c == '\n' || c == '\r' || c == '\x0b' || c == '\x0c'

/-- Python `str.strip()` on the underlying character list. -/
def pyStripChars (l : List Char) : List Char :=
  ((l.dropWhile pyIsSpace).reverse.dropWhile pyIsSpace).reverse

/-- Embedding of Python `str.strip()`. -/
def pyStrip (s : String) : String := String.mk (pyStripChars s.data)

/-- Python `str.split(",")` on the underlying character list.  Like in
Python, splitting the empty string yields one empty field and empty
fields are kept. -/
def pySplitCommaChars : List Char → List (List Char)
  | [] => [[]]
  | c :: cs =>
    if c = ',' then [] :: pySplitCommaChars cs
    else match pySplitCommaChars cs with
      | [] => [[c]]
      | t :: ts => (c :: t) :: ts

/-- Embedding of Python `str.split(",")`. -/
def pySplitComma (s : String) : List String :=
  (pySplitCommaChars s.data).map String.mk

/-- Embedding of Python `str.isdigit()` restricted to ASCII digits
(the source only compares against decimal index tokens). -/
def pyIsDigitStr (s : String) : Bool :=
  !s.data.isEmpty && s.data.all Char.isDigit

/-- Embedding of Python `int(...)` applied to a string of decimal
digits (the only way the source calls it, guarded by `isdigit`). -/
def pyToNat (s : String) : Nat :=
  s.data.foldl (fun n c => 10 * n + (c.toNat - '0'.toNat)) 0

/-- Embedding of the Python space-join used for `quoted_packages`. -/
def joinSpace : List String → String
  | [] => ""
  | [x] => x
  | x :: y :: xs => x ++ " " ++ joinSpace (y :: xs)

/-- Dynamic JSON-ish values as they reach the payload validators.
`null` doubles as Python `None`.  JSON numbers are embedded as
integers (the payload fields the source inspects numerically are
integer-valued); JSON objects never reach the inspected fields in the
modelled payloads. -/
inductive JValue where
  | null
  | bool (b : Bool)
  | int (n : Int)
  | str (s : String)
  | arr (xs : List JValue)

/-- Python truthiness (`bool(x)`) of a `JValue`. -/
def JValue.truthy : JValue → Bool
  | .null => false
  | .bool b => b
  | .int n => n != 0
  | .str s => s != ""
  | .arr xs => !xs.isEmpty

/-- Truthiness of `payload.get(key)`: a missing key yields Python
`None`, which is falsy. -/
def optTruthy : Option JValue → Bool
  | none => false
  | some v => v.truthy

/-- Normalisation of `payload.get(key)` to Python `None` semantics: an
explicit JSON `null` is the same Python object `None` as a missing
key. -/
def getPy : Option JValue → Option JValue
  | some .null => none
  | v => v

/-- Python `isinstance(x, int)` for a `JValue`; `bool` is a subclass
of `int` in Python, with `True == 1` and `False == 0`. -/
def JValue.asInt : JValue → Option Int
  | .int n => some n
  | .bool b => some (if b then 1 else 0)
  | _ => none

/-- Error values of the program.  Each constructor stands for one
`raise` site of the source; the carried arguments are exactly the
values interpolated into that site's message. -/
inductive Err where
  /-- raise site: `RequestValidationError("host is required")` -/
  | hostRequired
  /-- raise site: `RequestValidationError("username is required")` -/
  | usernameRequired
  /-- raise site: `RequestValidationError("port must be a positive integer")` -/
  | portInvalid
  /-- raise site: `RequestValidationError("provide exactly one of password or key_file")` -/
  | credsExactlyOne
  /-- raise site: `RequestValidationError("password must be a non-empty string")` -/
  | passwordInvalid
  /-- raise site: `RequestValidationError("key_file must be a non-empty string")` -/
  | keyFileInvalid
  /-- raise site: `RequestValidationError("software must be a non-empty JSON array ...")` -/
  | softwareNotList
  /-- raise site: `RequestValidationError("software items must be non-empty strings")` -/
  | softwareItemInvalid
  /-- raise site: the unknown-software `RequestValidationError` of `_ensure_software_list` -/
  | unknownSoftwareJson (name : String)
  /-- raise site: `ValueError("--software provided but no valid entries were found.")` -/
  | noValidEntries
  /-- raise site: the unknown-software-names `ValueError` of `resolve_software_list` -/
  | unknownSoftwareCli (names : List String)
  /-- raise site: the invalid-selection `ValueError` of `parse_selection` -/
  | invalidToken (tok : String)
  /-- raise site: the selection-out-of-range `ValueError` of `parse_selection` -/
  | outOfRange (idx : Nat) (total : Nat)
  /-- raise site: `RemoteInstallerError("No software selected for installation.")` -/
  | emptySelection
  /-- raise site: `RemoteInstallerError("Unsupported Linux distribution: ...")` -/
  | unsupportedDistribution
  /-- raise site: `RemoteInstallerError("Unsupported package manager: ...")` -/
  | unsupportedPackageManager (pm : String)
  /-- raise site: the command-failed `RemoteInstallerError` of `RemoteInstaller.run`;
  the fields are the four interpolated values in message order
  (exit code, command, stripped stderr, stripped stdout). -/
  | commandFailed (exitCode : Nat) (command : String) (stderr : String) (stdout : String)
  /-- raise site: the Python `KeyError` escaping from the
  `SOFTWARE_CATALOG` subscript in `install` -/
  | catalogKeyError (name : String)
  /-- raise site: an exception raised by paramiko inside `client.connect` -/
  | connectionFailed
  deriving DecidableEq, Repr

/-- Embedding of the `SOFTWARE_CATALOG` dict: display name → native
package name, in source order. -/
def SOFTWARE_CATALOG : List (String × String) :=
  [("git", "git"), ("curl", "curl"), ("wget", "wget"), ("vim", "vim"),
   ("htop", "htop"), ("docker", "docker.io"), ("nginx", "nginx"),
   ("nodejs", "nodejs"), ("python3-pip", "python3-pip")]

/-- Dict lookup `SOFTWARE_CATALOG.get(name)` / membership `name in SOFTWARE_CATALOG`. -/
def catalogLookup (name : String) : Option String :=
  match SOFTWARE_CATALOG.find? (fun kv => kv.1 = name) with
  | some kv => some kv.2
  | none => none

/-- Embedding of the `SSHConfig` dataclass. -/
structure SSHConfig where
  host : String
  username : String
  password : Option String
  key_file : Option String
  port : Int
  deriving DecidableEq, Repr

/-- The JSON payload fields that `_config_from_payload` and
`_ensure_software_list` read (`payload.get(...)`); `none` means the
key is absent. -/
structure Payload where
  host : Option JValue
  username : Option JValue
  port : Option JValue
  password : Option JValue
  key_file : Option JValue
  software : Option JValue

/-- Loop body of `parse_selection`: iterate over the split tokens,
carrying the `picked` accumulator. -/
def parseSelectionGo (totalOptions : Nat) : List String → List Nat → Except Err (List Nat)
  | [], picked => .ok picked
  | tok :: rest, picked =>
    let t := pyStrip tok
    if t = "" then parseSelectionGo totalOptions rest picked
    else if !pyIsDigitStr t then .error (.invalidToken t)
    else
      let idx := pyToNat t
      if idx < 1 || idx > totalOptions then .error (.outOfRange idx totalOptions)
      else if idx ∈ picked then parseSelectionGo totalOptions rest picked
      else parseSelectionGo totalOptions rest (picked ++ [idx])

/-- Embedding of `parse_selection(raw_selection, total_options)`. -/
def parseSelection (rawSelection : String) (totalOptions : Nat) : Except Err (List Nat) :=
  parseSelectionGo totalOptions (pySplitComma rawSelection) []

/-- Result of `resolve_software_list`: the falsy-argument branch
enters the interactive chooser instead of validating. -/
inductive ResolveRes where
  | interactive
  | ok (names : List String)
  | err (e : Err)
  deriving DecidableEq, Repr

/-- Dedup loop of `resolve_software_list`, preserving first-occurrence
order: an item is appended only when not already collected. -/
def uniqueLoop : List String → List String → List String
  | acc, [] => acc
  | acc, x :: xs => uniqueLoop (if x ∈ acc then acc else acc ++ [x]) xs

/-- Embedding of `resolve_software_list(software_arg)`. -/
def resolveSoftwareList (softwareArg : Option String) : ResolveRes :=
  match softwareArg with
  | none => .interactive
  | some s =>
    if s = "" then .interactive
    else
      let requested := ((pySplitComma s).map pyStrip).filter (fun t => t ≠ "")
      if requested.isEmpty then .err .noValidEntries
      else
        let invalid := requested.filter (fun name => (catalogLookup name).isNone)
        if !invalid.isEmpty then .err (.unknownSoftwareCli invalid)
        else .ok (uniqueLoop [] requested)

/-- Loop body of `_ensure_software_list`. -/
def ensureSoftwareGo : List JValue → List String → Except Err (List String)
  | [], acc => .ok acc
  | v :: vs, acc =>
    match v with
    | .str name =>
      if pyStrip name = "" then .error .softwareItemInvalid
      else
        let normalized := pyStrip name
        if (catalogLookup normalized).isNone then .error (.unknownSoftwareJson normalized)
        else if normalized ∈ acc then ensureSoftwareGo vs acc
        else ensureSoftwareGo vs (acc ++ [normalized])
    | _ => .error .softwareItemInvalid

/-- Embedding of `_ensure_software_list(value)` applied to the value of
`payload.get("software")`. -/
def ensureSoftwareList (value : Option JValue) : Except Err (List String) :=
  match value with
  | some (.arr xs) =>
    if xs.isEmpty then .error .softwareNotList
    else ensureSoftwareGo xs []
  | _ => .error .softwareNotList

/-- Host/username check of `_config_from_payload`: the value must be a
string whose stripped form is non-empty (`not isinstance(v, str) or
not v.strip()` raises); the accepted raw string is returned. -/
def strFieldCheck (e : Err) : Option JValue → Except Err String
  | some (.str v) => if pyStrip v = "" then .error e else .ok v
  | _ => .error e

/-- Port check of `_config_from_payload`: `not isinstance(port, int)
or port <= 0` raises; the accepted integer is returned. -/
def portCheck (v : JValue) : Except Err Int :=
  match v.asInt with
  | none => .error .portInvalid
  | some port => if port ≤ 0 then .error .portInvalid else .ok port

/-- Password shape check of `_config_from_payload`: `password is not
None and (not isinstance(password, str) or not password)` raises. -/
def passwordShape : Option JValue → Except Err (Option String)
  | none => .ok none
  | some (.str pw) => if pw = "" then .error .passwordInvalid else .ok (some pw)
  | some _ => .error .passwordInvalid

/-- Key-file shape check of `_config_from_payload`, mirroring the
password shape check. -/
def keyFileShape : Option JValue → Except Err (Option String)
  | none => .ok none
  | some (.str kf) => if kf = "" then .error .keyFileInvalid else .ok (some kf)
  | some _ => .error .keyFileInvalid

/-- Whether an optional payload value is a present, non-empty string —
the data-model reading of a credential being supplied. -/
def presentNonEmptyStr : Option JValue → Bool
  | some (.str s) => s != ""
  | _ => false

/-- Embedding of `_config_from_payload(payload)`: sequential validation
exactly in source order (host, username, port, credential exclusivity
via truthiness, password shape, key_file shape, software list), then
construction of the `SSHConfig` with stripped host and username. -/
def configFromPayload (p : Payload) : Except Err (SSHConfig × List String) :=
  match strFieldCheck .hostRequired p.host with
  | .error e => .error e
  | .ok host =>
    match strFieldCheck .usernameRequired p.username with
    | .error e => .error e
    | .ok username =>
      match portCheck (p.port.getD (.int 22)) with
      | .error e => .error e
      | .ok port =>
        if optTruthy p.password = optTruthy p.key_file then .error .credsExactlyOne
        else
          match passwordShape (getPy p.password) with
          | .error e => .error e
          | .ok password =>
            match keyFileShape (getPy p.key_file) with
            | .error e => .error e
            | .ok key_file =>
              match ensureSoftwareList p.software with
              | .error e => .error e
              | .ok softwareNames =>
                .ok (⟨pyStrip host, pyStrip username, password, key_file, port⟩,
                  softwareNames)

/-- Characters that Python `shlex.quote` treats as safe: the ASCII
word characters of its `_find_unsafe` regex (letters, digits,
underscore) plus at-sign, percent, plus, equals, colon, comma, dot,
slash and hyphen. -/
def isShlexSafeChar (c : Char) : Bool :=
  c.isAlphanum || c = '_' || c = '@' || c = '%' || c = '+' || c = '=' ||
    c = ':' || c = ',' || c = '.' || c = '/' || c = '-'

/-- The replace step of `shlex.quote`: each single quote becomes the
five characters quote, double-quote, quote, double-quote, quote. -/
def escQuote : List Char → List Char
  | [] => []
  | c :: cs =>
    if c = '\'' then '\'' :: '"' :: '\'' :: '"' :: '\'' :: escQuote cs
    else c :: escQuote cs

/-- Embedding of Python `shlex.quote` on the character list: empty
strings become two quotes, all-safe strings are returned unchanged,
anything else is wrapped in single quotes with inner quotes escaped. -/
def quoteChars (s : List Char) : List Char :=
  if s.isEmpty then ['\'', '\'']
  else if s.all isShlexSafeChar then s
  else '\'' :: (escQuote s ++ ['\''])

/-- Embedding of Python `shlex.quote`. -/
def shlexQuote (s : String) : String := String.mk (quoteChars s.data)

/-- Scanner mode of the POSIX shell word-splitting model: outside any
quotes, inside single quotes, inside double quotes. -/
inductive SMode where
  | norm
  | sq
  | dq
  deriving DecidableEq, Repr

/-- Flushes the in-progress word (accumulated in reverse) at a word
boundary; `none` means no word is in progress. -/
def flushWord : Option (List Char) → List String
  | none => []
  | some w => [String.mk w.reverse]

/-- One-pass POSIX shell field splitter covering the constructs that
appear in synthesized commands: unquoted spaces separate words, single
quotes protect everything up to the closing quote, double quotes
protect everything up to the closing double quote.  Returns `none` on
an unterminated quote. -/
def splitAux : List Char → SMode → Option (List Char) → List String → Option (List String)
  | [], .norm, cur, acc => some (acc ++ flushWord cur)
  | c :: cs, .norm, cur, acc =>
    if c = ' ' then splitAux cs .norm none (acc ++ flushWord cur)
    else if c = '\'' then splitAux cs .sq (some (cur.getD [])) acc
    else if c = '"' then splitAux cs .dq (some (cur.getD [])) acc
    else splitAux cs .norm (some (c :: cur.getD [])) acc
  | [], .sq, _, _ => none
  | c :: cs, .sq, cur, acc =>
    if c = '\'' then splitAux cs .norm cur acc
    else splitAux cs .sq (some (c :: cur.getD [])) acc
  | [], .dq, _, _ => none
  | c :: cs, .dq, cur, acc =>
    if c = '"' then splitAux cs .norm cur acc
    else splitAux cs .dq (some (c :: cur.getD [])) acc

/-- Splits a string into the shell words a POSIX shell would see. -/
def shellSplit (s : String) : Option (List String) :=
  splitAux s.data .norm none []

/-- The space-joined `shlex.quote`d package names
(`quoted_packages` in `build_install_command`). -/
def quotedPackages (packages : List String) : String :=
  joinSpace (packages.map shlexQuote)

/-- The per-manager `install_cmd` templates of `build_install_command`
(the part before privilege-escalation wrapping); `none` is the
unsupported-package-manager branch. -/
def installCmdCore (packageManager : String) (packages : List String) : Option String :=
  if packageManager = "apt" then
    some ("DEBIAN_FRONTEND=noninteractive apt-get update && " ++
      "DEBIAN_FRONTEND=noninteractive apt-get install -y " ++ quotedPackages packages)
  else if packageManager = "dnf" || packageManager = "yum" then
    some (packageManager ++ " install -y " ++ quotedPackages packages)
  else if packageManager = "zypper" then
    some ("zypper --non-interactive install " ++ quotedPackages packages)
  else none

/-- Truthiness of the `Optional[str]` password field
(`if self.ssh_config.password:`). -/
def optStrTruthy : Option String → Bool
  | none => false
  | some s => s != ""

/-- Embedding of `RemoteInstaller.build_install_command`: synthesize
the per-manager install command, then wrap it for privilege
escalation (password piped to sudo -S, or passwordless sudo -n). -/
def buildInstallCommand (cfg : SSHConfig) (packageManager : String)
    (packages : List String) : Except Err String :=
  match installCmdCore packageManager packages with
  | none => .error (.unsupportedPackageManager packageManager)
  | some installCmd =>
    match cfg.password with
    | some pw =>
      if pw != "" then
        .ok ("bash -lc \"echo " ++ shlexQuote pw ++ " | sudo -S bash -lc " ++
          shlexQuote installCmd ++ "\"")
      else .ok ("sudo -n bash -lc " ++ shlexQuote installCmd)
    | none => .ok ("sudo -n bash -lc " ++ shlexQuote installCmd)

/-- Outcome of one `exec_command` on the remote host: exit status plus
the raw captured stdout and stderr streams. -/
structure ExecResult where
  exitCode : Nat
  stdout : String
  stderr : String
  deriving DecidableEq, Repr

/-- The remote world as the engine observes it: whether `connect()`
succeeds, and the outcome of each executed command string. -/
structure Oracle where
  connectOk : Bool
  exec : String → ExecResult

/-- Observable connection-lifecycle events of one installation request,
in order: the successful `connect()`, each `exec_command`, and
`close()`. -/
inductive Event where
  | connect
  | exec (command : String)
  | close
  deriving DecidableEq, Repr

/-- Embedding of `RemoteInstaller.run`: execute the command, strip the
captured stdout and stderr, fail on a non-zero exit status.  The
returned trace lists the commands executed (exactly one; the source
has no retry). -/
def RemoteInstaller.run (o : Oracle) (command : String) :
    List Event × Except Err String :=
  let r := o.exec command
  let out := pyStrip r.stdout
  let err := pyStrip r.stderr
  if r.exitCode ≠ 0 then
    ([.exec command], .error (.commandFailed r.exitCode command err out))
  else ([.exec command], .ok out)

/-- The fixed probe command of `detect_package_manager` (the Python
triple-quoted literal, whose backslash-newline pairs are line
continuations, so it is a single line). -/
def probeScript : String :=
  "bash -lc 'if command -v apt-get >/dev/null 2>&1; then echo apt; " ++
  "elif command -v dnf >/dev/null 2>&1; then echo dnf; " ++
  "elif command -v yum >/dev/null 2>&1; then echo yum; " ++
  "elif command -v zypper >/dev/null 2>&1; then echo zypper; " ++
  "else echo unknown; fi'"

/-- Semantics of the probe script on a host where `has b` says whether
binary `b` is on the PATH: the first `command -v` hit in the script's
fixed order decides the echoed word.  Modelled from the shell script
literal at the top of `detect_package_manager`. -/
def probeOutput (has : String → Bool) : String :=
  if has "apt-get" then "apt"
  else if has "dnf" then "dnf"
  else if has "yum" then "yum"
  else if has "zypper" then "zypper"
  else "unknown"

/-- The probe's fixed priority order, as pairs of the binary tested and
the manager identity echoed for it. -/
def pmPriority : List (String × String) :=
  [("apt-get", "apt"), ("dnf", "dnf"), ("yum", "yum"), ("zypper", "zypper")]

/-- Embedding of `RemoteInstaller.detect_package_manager`: run the
probe once; the answer `unknown` becomes the unsupported-distribution
error, anything else is returned as the manager identity. -/
def RemoteInstaller.detectPackageManager (o : Oracle) :
    List Event × Except Err String :=
  let (t, r) := RemoteInstaller.run o probeScript
  match r with
  | .error e => (t, .error e)
  | .ok manager =>
    if manager = "unknown" then (t, .error .unsupportedDistribution)
    else (t, .ok manager)

/-- The list comprehension mapping each selected display name through
`SOFTWARE_CATALOG`: a missing key raises `KeyError` at the first
offending name. -/
def lookupAllPackages : List String → Except Err (List String)
  | [] => .ok []
  | name :: rest =>
    match catalogLookup name with
    | none => .error (.catalogKeyError name)
    | some pkg =>
      match lookupAllPackages rest with
      | .error e => .error e
      | .ok pkgs => .ok (pkg :: pkgs)

/-- Embedding of `RemoteInstaller.install`: empty-selection guard,
package-manager detection, catalog mapping, command synthesis,
execution.  Returns the executed-command trace and the outcome. -/
def RemoteInstaller.install (o : Oracle) (cfg : SSHConfig)
    (softwareNames : List String) : List Event × Except Err Unit :=
  if softwareNames.isEmpty then ([], .error .emptySelection)
  else
    let (t1, r1) := RemoteInstaller.detectPackageManager o
    match r1 with
    | .error e => (t1, .error e)
    | .ok manager =>
      match lookupAllPackages softwareNames with
      | .error e => (t1, .error e)
      | .ok packages =>
        match buildInstallCommand cfg manager packages with
        | .error e => (t1, .error e)
        | .ok command =>
          let (t2, r2) := RemoteInstaller.run o command
          match r2 with
          | .error e => (t1 ++ t2, .error e)
          | .ok _ => (t1 ++ t2, .ok ())

/-- The success dictionary returned by `install_from_payload`. -/
structure InstallResponse where
  status : String
  host : String
  installed : List String
  deriving DecidableEq, Repr

/-- Embedding of `install_from_payload`: validate, connect, install
inside try/finally (so `close()` runs on success and on every
exception), and surface the result.  The trace records the connect,
the executed commands, and the close. -/
def installFromPayload (o : Oracle) (p : Payload) :
    List Event × Except Err InstallResponse :=
  match configFromPayload p with
  | .error e => ([], .error e)
  | .ok (cfg, softwareNames) =>
    if o.connectOk then
      let (t, r) := RemoteInstaller.install o cfg softwareNames
      (Event.connect :: t ++ [Event.close],
        match r with
        | .error e => .error e
        | .ok _ => .ok ⟨"success", cfg.host, softwareNames⟩)
    else ([], .error .connectionFailed)

/-- A character that a POSIX shell scanner in normal mode consumes as
word material: not a space, not a single quote, not a double quote. -/
def isPlainChar (c : Char) : Bool :=
  c != ' ' && c != '\'' && c != '"'

/-- Prefix words joined by single spaces, ending with a space, in front
of a tail: the word-level view of the synthesized command templates. -/
def tokenChain (ts : List String) (tail : List Char) : List Char :=
  ts.foldr (fun t r => t.data ++ ' ' :: r) tail

/-- The fixed command words preceding the package names for each
supported manager. -/
def managerPrefixWords (pm : String) : List String :=
  if pm = "apt" then
    ["DEBIAN_FRONTEND=noninteractive", "apt-get", "update", "&&",
     "DEBIAN_FRONTEND=noninteractive", "apt-get", "install", "-y"]
  else if pm = "dnf" || pm = "yum" then [pm, "install", "-y"]
  else if pm = "zypper" then ["zypper", "--non-interactive", "install"]
  else []

deriving instance DecidableEq for Except

/-- Oracle for the C9 counterexample: every command fails with exit
code 1 and stderr carrying surrounding whitespace. -/
def oracleStderrPadded : Oracle := ⟨true, fun _ => ⟨1, "", " boom \n"⟩⟩

/-- The effective tokens of a token list: stripped, with empty tokens
dropped (the tokens the parse loop acts on). -/
def selTokensOf (toks : List String) : List String :=
  (toks.map pyStrip).filter (fun t => t ≠ "")

/-- Effective tokens of a raw selection string. -/
def selTokens (s : String) : List String := selTokensOf (pySplitComma s)

/-- Witness oracle: probe reports apt, every other command succeeds. -/
def wOracle : Oracle :=
  ⟨true, fun c => if c = probeScript then ⟨0, "apt", ""⟩ else ⟨0, "done", ""⟩⟩

/-- Witness payload: a well-formed password-authenticated request. -/
def wPayload : Payload :=
  ⟨some (.str "10.0.0.1"), some (.str "ubuntu"), none, some (.str "secret"),
    none, some (.arr [.str "git", .str "curl"])⟩

/-- Witness host predicate: only yum is installed. -/
def wHas : String → Bool := fun b => b == "yum"

/-- Witness oracle for detection: the probe echoes what the script
would echo on a host where only yum is present. -/
def wProbeOracle : Oracle :=
  ⟨true, fun c => if c = probeScript then ⟨0, "yum", ""⟩ else ⟨0, "", ""⟩⟩

/-- Witness config: key-authenticated, so synthesized commands use
passwordless sudo. -/
def wCfg : SSHConfig := ⟨"h", "u", none, none, 22⟩

/-- The command synthesized for apt and the single package git under
the witness config. -/
def wCmd : String := (buildInstallCommand wCfg "apt" ["git"]).toOption.getD ""

/-- Witness oracle for command failure: the probe succeeds reporting
apt, and every other command exits 1 with stdout "out", stderr "err". -/
def wFailOracle : Oracle :=
  ⟨true, fun c => if c = probeScript then ⟨0, "apt", ""⟩ else ⟨1, "out", "err"⟩⟩

example : parseSelection "1,3,1,2" 4 = .ok [1, 3, 2] := rfl

example : parseSelection "0" 3 = .error (.outOfRange 0 3) := rfl

example : parseSelection "x" 3 = .error (.invalidToken "x") := rfl

example : resolveSoftwareList (some "git,curl,git") = .ok ["git", "curl"] := by decide

example : resolveSoftwareList (some ", ,") = .err .noValidEntries := by decide

example : ensureSoftwareList (some (.arr [.str "git", .str ""])) = .error .softwareItemInvalid := rfl

theorem isShlexSafeChar_plain {c : Char} (h : isShlexSafeChar c = true) :
    isPlainChar c = true := by
  have h1 : c ≠ ' ' := by rintro rfl; exact absurd h (by decide)
  have h2 : c ≠ '\'' := by rintro rfl; exact absurd h (by decide)
  have h3 : c ≠ '"' := by rintro rfl; exact absurd h (by decide)
  simp [isPlainChar, h1, h2, h3]

theorem stringMkData (s : String) : String.mk s.data = s := rfl

theorem isPlainChar_spec {c : Char} (h : isPlainChar c = true) :
    c ≠ ' ' ∧ c ≠ '\'' ∧ c ≠ '"' := by
  simp only [isPlainChar, Bool.and_eq_true, bne_iff_ne, ne_eq] at h
  exact ⟨h.1.1, h.1.2, h.2⟩

/-- Consuming plain word characters in normal mode appends them to the
word in progress. -/
theorem splitAux_plain_append (l : List Char) (hl : l.all isPlainChar = true)
    (rest : List Char) (w : List Char) (acc : List String) :
    splitAux (l ++ rest) .norm (some w) acc =
      splitAux rest .norm (some (l.reverse ++ w)) acc := by
  induction l generalizing w with
  | nil => simp
  | cons c cs ih =>
    rw [List.all_cons, Bool.and_eq_true] at hl
    obtain ⟨h1, h2, h3⟩ := isPlainChar_spec hl.1
    rw [List.cons_append]
    show splitAux (c :: (cs ++ rest)) .norm (some w) acc = _
    rw [splitAux, if_neg h1, if_neg h2, if_neg h3]
    simp only [Option.getD_some]
    rw [ih hl.2 (c :: w)]
    simp [List.append_assoc]

/-- A space in normal mode flushes the word in progress. -/
theorem splitAux_space (rest : List Char) (cur : Option (List Char)) (acc : List String) :
    splitAux (' ' :: rest) .norm cur acc =
      splitAux rest .norm none (acc ++ flushWord cur) := by
  rw [splitAux, if_pos rfl]

/-- Consuming the single-quote-escaped body of a word: every character
of the quoted string (with quotes going through the close-reopen
dance) lands in the word in progress, and the closing quote returns to
normal mode. -/
theorem splitAux_sq_esc (l : List Char) (rest : List Char) (w : List Char)
    (acc : List String) :
    splitAux (escQuote l ++ '\'' :: rest) .sq (some w) acc =
      splitAux rest .norm (some (l.reverse ++ w)) acc := by
  induction l generalizing w with
  | nil =>
    rw [escQuote, List.nil_append, splitAux, if_pos rfl]
    simp
  | cons c cs ih =>
    by_cases hc : c = '\''
    · subst hc
      rw [escQuote, if_pos rfl]
      simp only [List.cons_append]
      rw [splitAux, if_pos rfl]
      rw [splitAux, if_neg (by decide), if_neg (by decide), if_pos rfl]
      rw [splitAux, if_neg (by decide)]
      rw [splitAux, if_pos rfl]
      rw [splitAux, if_pos rfl]
      simp only [Option.getD_some]
      rw [ih ('\'' :: w)]
      simp [List.append_assoc]
    · rw [escQuote, if_neg hc]
      simp only [List.cons_append]
      rw [splitAux, if_neg hc]
      simp only [Option.getD_some]
      rw [ih (c :: w)]
      simp [List.append_assoc]

/-- Consuming one `shlex.quote`d string in normal mode: exactly the
original characters are appended to the word in progress, whatever
quoting strategy `quote` chose. -/
theorem splitAux_quote (s : List Char) (rest : List Char)
    (cur : Option (List Char)) (acc : List String) :
    splitAux (quoteChars s ++ rest) .norm cur acc =
      splitAux rest .norm (some (s.reverse ++ cur.getD [])) acc := by
  by_cases hs : s.isEmpty
  · rw [List.isEmpty_iff] at hs
    subst hs
    show splitAux ('\'' :: '\'' :: rest) .norm cur acc = _
    rw [splitAux, if_neg (by decide), if_pos rfl]
    rw [splitAux, if_pos rfl]
    simp
  · by_cases hall : s.all isShlexSafeChar
    · rw [quoteChars, if_neg hs, if_pos hall]
      obtain ⟨c, cs, rfl⟩ : ∃ c cs, s = c :: cs := by
        cases s with
        | nil => exact absurd rfl hs
        | cons c cs => exact ⟨c, cs, rfl⟩
      rw [List.all_cons, Bool.and_eq_true] at hall
      obtain ⟨h1, h2, h3⟩ := isPlainChar_spec (isShlexSafeChar_plain hall.1)
      rw [List.cons_append, splitAux, if_neg h1, if_neg h2, if_neg h3]
      have hplain : cs.all isPlainChar = true := by
        rw [List.all_eq_true] at hall ⊢
        exact fun x hx => isShlexSafeChar_plain (hall.2 x hx)
      rw [splitAux_plain_append cs hplain rest (c :: cur.getD []) acc]
      simp [List.append_assoc]
    · rw [quoteChars, if_neg hs, if_neg hall]
      have hsplit : ('\'' :: (escQuote s ++ ['\''])) ++ rest =
          '\'' :: (escQuote s ++ '\'' :: rest) := by
        simp [List.append_assoc]
      rw [hsplit, splitAux, if_neg (by decide), if_pos rfl]
      rw [splitAux_sq_esc s rest (cur.getD []) acc]

/-- Consuming the space-joined quoted package list from a clean normal
state yields exactly the original package names as words. -/
theorem splitAux_quotedPackages (pkgs : List String) (acc : List String) :
    splitAux (quotedPackages pkgs).data .norm none acc = some (acc ++ pkgs) := by
  induction pkgs generalizing acc with
  | nil => simp [quotedPackages, joinSpace, splitAux, flushWord]
  | cons p rest ih =>
    cases rest with
    | nil =>
      show splitAux (shlexQuote p).data .norm none acc = some (acc ++ [p])
      rw [shlexQuote]
      show splitAux (quoteChars p.data) .norm none acc = _
      rw [← List.append_nil (quoteChars p.data)]
      rw [splitAux_quote p.data [] none acc]
      show some (acc ++ flushWord (some (p.data.reverse ++ []))) = _
      simp [flushWord, stringMkData]
    | cons q rest2 =>
      show splitAux (shlexQuote p ++ " " ++
        joinSpace ((q :: rest2).map shlexQuote)).data .norm none acc = _
      rw [String.data_append, String.data_append]
      rw [List.append_assoc, shlexQuote]
      show splitAux (quoteChars p.data ++ (" ".data ++ _)) .norm none acc = _
      rw [splitAux_quote p.data _ none acc]
      show splitAux (' ' :: (joinSpace ((q :: rest2).map shlexQuote)).data)
        .norm (some (p.data.reverse ++ [])) acc = _
      rw [splitAux_space]
      have hfl : acc ++ flushWord (some (p.data.reverse ++ [])) = acc ++ [p] := by
        simp [flushWord, stringMkData]
      rw [hfl]
      show splitAux (quotedPackages (q :: rest2)).data .norm none (acc ++ [p]) = _
      rw [ih]
      simp

theorem tokenChain_concat (ts : List String) (tail : List Char) :
    tokenChain ts tail = tokenChain ts [] ++ tail := by
  induction ts with
  | nil => simp [tokenChain]
  | cons t ts ih =>
    show t.data ++ ' ' :: tokenChain ts tail = (t.data ++ ' ' :: tokenChain ts []) ++ tail
    rw [ih]
    simp [List.append_assoc]

/-- Consuming one plain word followed by a space flushes exactly that
word. -/
theorem splitAux_plainToken (t : String) (hne : t.data ≠ [])
    (ht : t.data.all isPlainChar = true) (rest : List Char) (acc : List String) :
    splitAux (t.data ++ ' ' :: rest) .norm none acc =
      splitAux rest .norm none (acc ++ [t]) := by
  obtain ⟨c, cs, hd⟩ : ∃ c cs, t.data = c :: cs := by
    cases h : t.data with
    | nil => exact absurd h hne
    | cons c cs => exact ⟨c, cs, rfl⟩
  rw [hd] at ht
  rw [List.all_cons, Bool.and_eq_true] at ht
  obtain ⟨h1, h2, h3⟩ := isPlainChar_spec ht.1
  rw [hd, List.cons_append, splitAux, if_neg h1, if_neg h2, if_neg h3]
  simp only [Option.getD_none]
  rw [splitAux_plain_append cs ht.2 _ [c] acc]
  rw [splitAux_space]
  have hfl : acc ++ flushWord (some (cs.reverse ++ [c])) = acc ++ [t] := by
    simp only [flushWord, List.reverse_append, List.reverse_reverse,
      List.reverse_cons, List.reverse_nil, List.nil_append, List.singleton_append]
    rw [← hd, stringMkData]
  rw [hfl]

/-- Consuming a chain of plain words, each followed by a space, and
then the quoted package list recovers the words followed by the
package names. -/
theorem splitAux_tokenChain (ts : List String)
    (hts : ∀ t ∈ ts, t.data ≠ [] ∧ t.data.all isPlainChar = true)
    (pkgs : List String) (acc : List String) :
    splitAux (tokenChain ts (quotedPackages pkgs).data) .norm none acc =
      some (acc ++ ts ++ pkgs) := by
  induction ts generalizing acc with
  | nil => simpa using splitAux_quotedPackages pkgs acc
  | cons t ts ih =>
    obtain ⟨hne, hpl⟩ := hts t (List.mem_cons_self t ts)
    show splitAux (t.data ++ ' ' :: tokenChain ts (quotedPackages pkgs).data)
      .norm none acc = _
    rw [splitAux_plainToken t hne hpl]
    rw [ih (fun x hx => hts x (List.mem_cons_of_mem _ hx))]
    simp

/-- Claim C2: splitting any synthesized per-manager install command as
a POSIX shell would recovers the fixed command words of the manager
followed by exactly the original package names, one word each, in
order — so every package name appears exactly once in package
position and no shell metacharacter of any package name escapes its
quoting, for arbitrary package-name strings. -/
theorem installCmdCore_words (pm : String) (pkgs : List String) (cmd : String)
    (h : installCmdCore pm pkgs = some cmd) :
    shellSplit cmd = some (managerPrefixWords pm ++ pkgs) := by
  unfold installCmdCore at h
  by_cases h1 : pm = "apt"
  · subst h1
    rw [if_pos rfl] at h
    injection h with h
    subst h
    have hw : managerPrefixWords "apt" =
        ["DEBIAN_FRONTEND=noninteractive", "apt-get", "update", "&&",
         "DEBIAN_FRONTEND=noninteractive", "apt-get", "install", "-y"] := rfl
    rw [hw]
    show splitAux (("DEBIAN_FRONTEND=noninteractive apt-get update && " ++
      "DEBIAN_FRONTEND=noninteractive apt-get install -y " ++
      quotedPackages pkgs).data) .norm none [] = _
    rw [String.data_append, String.data_append]
    have hpre : ("DEBIAN_FRONTEND=noninteractive apt-get update && ").data ++
        ("DEBIAN_FRONTEND=noninteractive apt-get install -y ").data =
        tokenChain ["DEBIAN_FRONTEND=noninteractive", "apt-get", "update", "&&",
          "DEBIAN_FRONTEND=noninteractive", "apt-get", "install", "-y"] [] := by decide
    rw [hpre, ← tokenChain_concat]
    simpa using splitAux_tokenChain _ (by decide) pkgs []
  · rw [if_neg h1] at h
    by_cases h2 : (pm = "dnf" || pm = "yum") = true
    · rw [if_pos h2] at h
      injection h with h
      subst h
      have h4 : pm = "dnf" ∨ pm = "yum" := by
        rcases (Bool.or_eq_true _ _).mp h2 with h3 | h3
        · exact Or.inl (of_decide_eq_true h3)
        · exact Or.inr (of_decide_eq_true h3)
      rcases h4 with h3 | h3 <;> subst h3
      · rw [show managerPrefixWords "dnf" = ["dnf", "install", "-y"] from rfl]
        show splitAux (("dnf" ++ " install -y " ++ quotedPackages pkgs).data)
          .norm none [] = _
        rw [String.data_append, String.data_append]
        rw [show ("dnf").data ++ (" install -y ").data =
          tokenChain ["dnf", "install", "-y"] [] from by decide, ← tokenChain_concat]
        simpa using splitAux_tokenChain _ (by decide) pkgs []
      · rw [show managerPrefixWords "yum" = ["yum", "install", "-y"] from rfl]
        show splitAux (("yum" ++ " install -y " ++ quotedPackages pkgs).data)
          .norm none [] = _
        rw [String.data_append, String.data_append]
        rw [show ("yum").data ++ (" install -y ").data =
          tokenChain ["yum", "install", "-y"] [] from by decide, ← tokenChain_concat]
        simpa using splitAux_tokenChain _ (by decide) pkgs []
    · rw [if_neg h2] at h
      by_cases h3 : pm = "zypper"
      · subst h3
        rw [if_pos rfl] at h
        injection h with h
        subst h
        have hw : managerPrefixWords "zypper" =
            ["zypper", "--non-interactive", "install"] := rfl
        rw [hw]
        show splitAux (("zypper --non-interactive install " ++
          quotedPackages pkgs).data) .norm none [] = _
        rw [String.data_append]
        have hpre : ("zypper --non-interactive install ").data =
            tokenChain ["zypper", "--non-interactive", "install"] [] := by decide
        rw [hpre, ← tokenChain_concat]
        simpa using splitAux_tokenChain _ (by decide) pkgs []
      · rw [if_neg h3] at h
        exact absurd h (by simp)

/-- Claim C8 counterexample: two synthesizer invocations with the same
manager identity and the same package list but different installer
state (a password-authenticated config versus a key-authenticated one)
produce different command strings, so the output is not determined by
the pair (manager, package list) alone. -/
theorem buildInstallCommand_password_sensitive :
    buildInstallCommand ⟨"h", "u", some "x", none, 22⟩ "apt" ["git"] ≠
      buildInstallCommand ⟨"h", "u", none, none, 22⟩ "apt" ["git"] := by decide

/-- Claim C8 amended: command synthesis is a pure, deterministic
function of the manager identity, the package list and the configured
password — two invocations whose configs agree on the password (all
other config state may differ) yield equal command strings. -/
theorem buildInstallCommand_deterministic (cfg cfg' : SSHConfig)
    (h : cfg.password = cfg'.password) (pm : String) (pkgs : List String) :
    buildInstallCommand cfg pm pkgs = buildInstallCommand cfg' pm pkgs := by
  unfold buildInstallCommand
  rw [h]

theorem buildInstallCommand_deterministic_witness :
    buildInstallCommand ⟨"hostA", "userA", some "pw", none, 22⟩ "apt" ["git"] =
      buildInstallCommand ⟨"hostB", "userB", some "pw", some "k", 2222⟩ "apt" ["git"] :=
  buildInstallCommand_deterministic _ _ rfl "apt" ["git"]

/-- Claim C3: under an oracle whose single probe run exits 0 and whose
stripped output is what the probe script echoes on a host described by
`has`, the detector issues exactly one remote command (the fixed probe
script) and returns the identity of the first manager present in the
fixed priority order apt-get, dnf, yum, zypper — failing with the
unsupported-distribution error instead of returning when none of the
four is present. -/
theorem detectPackageManager_spec (o : Oracle) (has : String → Bool)
    (hexit : (o.exec probeScript).exitCode = 0)
    (hout : pyStrip (o.exec probeScript).stdout = probeOutput has) :
    RemoteInstaller.detectPackageManager o =
      ([.exec probeScript],
        match pmPriority.find? (fun pr => has pr.1) with
        | some pr => .ok pr.2
        | none => .error .unsupportedDistribution) := by
  have hrun : RemoteInstaller.run o probeScript =
      ([.exec probeScript], .ok (pyStrip (o.exec probeScript).stdout)) := by
    unfold RemoteInstaller.run
    simp [hexit]
  unfold RemoteInstaller.detectPackageManager
  rw [hrun, hout]
  unfold probeOutput pmPriority
  cases h1 : has "apt-get" <;> cases h2 : has "dnf" <;> cases h3 : has "yum" <;>
    cases h4 : has "zypper" <;> simp [h1, h2, h3, h4, List.find?]

/-- Claim C9 counterexample: on a command whose captured stderr stream
carries surrounding whitespace (exit code 1), the raised failure
carries the whitespace-stripped text, not the captured stream verbatim
— the source applies `str.strip()` to both stdout and stderr before
interpolating them into the error. -/
theorem run_stderr_not_verbatim :
    (RemoteInstaller.run oracleStderrPadded "true").2 =
      .error (.commandFailed 1 "true" "boom" "") ∧
    Err.commandFailed 1 "true" "boom" "" ≠
      Err.commandFailed 1 "true" " boom \n" "" :=
  ⟨rfl, by decide⟩

/-- Claim C9 amended: whenever the engine reaches command execution
(non-empty selection, successful probe naming a supported manager,
catalog mapping and synthesis succeeded), it executes the synthesized
command exactly once with no retry; a non-zero exit code makes install
fail with the command-failed error carrying that exit code and the
whitespace-stripped captured stdout and stderr, and a zero exit code
never raises that failure. -/
theorem install_commandFailed (o : Oracle) (cfg : SSHConfig) (names : List String)
    (mgr : String) (pkgs : List String) (cmd : String)
    (hne : names.isEmpty = false)
    (hpexit : (o.exec probeScript).exitCode = 0)
    (hpout : pyStrip (o.exec probeScript).stdout = mgr)
    (hmgr : mgr ≠ "unknown")
    (hlook : lookupAllPackages names = .ok pkgs)
    (hbuild : buildInstallCommand cfg mgr pkgs = .ok cmd) :
    (RemoteInstaller.install o cfg names).1 = [.exec probeScript, .exec cmd] ∧
    ((o.exec cmd).exitCode ≠ 0 →
      (RemoteInstaller.install o cfg names).2 =
        .error (.commandFailed (o.exec cmd).exitCode cmd
          (pyStrip (o.exec cmd).stderr) (pyStrip (o.exec cmd).stdout))) ∧
    ((o.exec cmd).exitCode = 0 →
      (RemoteInstaller.install o cfg names).2 = .ok ()) := by
  have hdet : RemoteInstaller.detectPackageManager o = ([.exec probeScript], .ok mgr) := by
    have hrun : RemoteInstaller.run o probeScript =
        ([.exec probeScript], .ok (pyStrip (o.exec probeScript).stdout)) := by
      unfold RemoteInstaller.run
      simp [hpexit]
    unfold RemoteInstaller.detectPackageManager
    rw [hrun, hpout]
    simp [hmgr]
  by_cases hex : (o.exec cmd).exitCode = 0
  · have hall : RemoteInstaller.install o cfg names =
        ([.exec probeScript, .exec cmd], .ok ()) := by
      have hrun2 : RemoteInstaller.run o cmd =
          ([.exec cmd], .ok (pyStrip (o.exec cmd).stdout)) := by
        unfold RemoteInstaller.run
        simp [hex]
      unfold RemoteInstaller.install
      rw [hne]
      simp only [Bool.false_eq_true, if_false]
      rw [hdet]
      simp only []
      rw [hlook]
      simp only []
      rw [hbuild]
      simp only []
      rw [hrun2]
      simp
    refine ⟨by rw [hall], fun hc => absurd hex hc, fun _ => by rw [hall]⟩
  · have hall : RemoteInstaller.install o cfg names =
        ([.exec probeScript, .exec cmd],
          .error (.commandFailed (o.exec cmd).exitCode cmd
            (pyStrip (o.exec cmd).stderr) (pyStrip (o.exec cmd).stdout))) := by
      have hrun2 : RemoteInstaller.run o cmd =
          ([.exec cmd], .error (.commandFailed (o.exec cmd).exitCode cmd
            (pyStrip (o.exec cmd).stderr) (pyStrip (o.exec cmd).stdout))) := by
        unfold RemoteInstaller.run
        simp [hex]
      unfold RemoteInstaller.install
      rw [hne]
      simp only [Bool.false_eq_true, if_false]
      rw [hdet]
      simp only []
      rw [hlook]
      simp only []
      rw [hbuild]
      simp only []
      rw [hrun2]
      simp
    refine ⟨by rw [hall], fun _ => by rw [hall], fun hc => absurd hc hex⟩

/-- Every event in the trace of `RemoteInstaller.install` is a command
execution: the install step itself neither connects nor closes. -/
theorem install_trace_cases (o : Oracle) (cfg : SSHConfig) (names : List String) :
    (RemoteInstaller.install o cfg names).1 = [] ∨
    (RemoteInstaller.install o cfg names).1 = [Event.exec probeScript] ∨
    ∃ c, (RemoteInstaller.install o cfg names).1 =
      [Event.exec probeScript, Event.exec c] := by
  by_cases hne : names.isEmpty
  · left
    simp [RemoteInstaller.install, hne]
  · by_cases hpe : (o.exec probeScript).exitCode = 0
    · by_cases hu : pyStrip (o.exec probeScript).stdout = "unknown"
      · right; left
        simp [RemoteInstaller.install, RemoteInstaller.detectPackageManager,
          RemoteInstaller.run, hne, hpe, hu]
      · cases hl : lookupAllPackages names with
        | error e =>
          right; left
          simp [RemoteInstaller.install, RemoteInstaller.detectPackageManager,
            RemoteInstaller.run, hne, hpe, hu, hl]
        | ok pkgs =>
          cases hb : buildInstallCommand cfg (pyStrip (o.exec probeScript).stdout) pkgs with
          | error e =>
            right; left
            simp [RemoteInstaller.install, RemoteInstaller.detectPackageManager,
              RemoteInstaller.run, hne, hpe, hu, hl, hb]
          | ok cmd =>
            right; right
            refine ⟨cmd, ?_⟩
            by_cases hce : (o.exec cmd).exitCode = 0 <;>
              simp [RemoteInstaller.install, RemoteInstaller.detectPackageManager,
                RemoteInstaller.run, hne, hpe, hu, hl, hb, hce]
    · right; left
      simp [RemoteInstaller.install, RemoteInstaller.detectPackageManager,
        RemoteInstaller.run, hne, hpe]

/-- Claim C1: for every payload that validates and every oracle on
which connect() succeeds — whatever then happens during installation
(success, unsupported distribution, catalog fault, command failure) —
the trace of install_from_payload contains exactly one close event,
and that close is the final event, i.e. the connection is released on
every exit path before the outcome is surfaced. -/
theorem installFromPayload_close_once (o : Oracle) (p : Payload)
    (x : SSHConfig × List String)
    (hv : configFromPayload p = .ok x) (hc : o.connectOk = true) :
    (installFromPayload o p).1.count Event.close = 1 ∧
    (installFromPayload o p).1.getLast? = some Event.close := by
  obtain ⟨cfg, names⟩ := x
  have hf : (installFromPayload o p).1 =
      Event.connect :: (RemoteInstaller.install o cfg names).1 ++ [Event.close] := by
    unfold installFromPayload
    rw [hv]
    simp only []
    rw [hc]
    simp
  rcases install_trace_cases o cfg names with h | h | ⟨c, h⟩ <;>
    rw [hf, h] <;> exact ⟨rfl, rfl⟩

theorem uniqueLoop_mem {x : String} :
    ∀ {l acc : List String}, x ∈ uniqueLoop acc l → x ∈ acc ∨ x ∈ l := by
  intro l
  induction l with
  | nil => intro acc h; exact Or.inl h
  | cons y ys ih =>
    intro acc h
    rcases ih h with hacc | hys
    · by_cases hy : y ∈ acc
      · rw [if_pos hy] at hacc
        exact Or.inl hacc
      · rw [if_neg hy] at hacc
        rcases List.mem_append.mp hacc with h1 | h1
        · exact Or.inl h1
        · exact Or.inr (by simp [List.mem_singleton.mp h1])
    · exact Or.inr (List.mem_cons_of_mem _ hys)

theorem resolve_ok_catalog (s : String) (names : List String)
    (h : resolveSoftwareList (some s) = .ok names) :
    ∀ n ∈ names, (catalogLookup n).isSome = true := by
  simp only [resolveSoftwareList] at h
  by_cases hs : s = ""
  · rw [if_pos hs] at h
    exact absurd h (by simp)
  · rw [if_neg hs] at h
    by_cases he : (((pySplitComma s).map pyStrip).filter (fun t => t ≠ "")).isEmpty
    · rw [if_pos he] at h
      exact absurd h (by simp)
    · rw [if_neg he] at h
      cases hi : ((((pySplitComma s).map pyStrip).filter (fun t => t ≠ "")).filter
          (fun name => (catalogLookup name).isNone)).isEmpty with
      | false =>
        rw [if_pos (by simp only [hi]; decide)] at h
        exact absurd h (by simp)
      | true =>
        rw [if_neg (by simp only [hi]; decide)] at h
        simp only [ResolveRes.ok.injEq] at h
        subst h
        intro n hmem
        rcases uniqueLoop_mem hmem with h0 | h0
        · exact absurd h0 (List.not_mem_nil n)
        · rw [List.isEmpty_iff] at hi
          have hni := List.filter_eq_nil_iff.mp hi n h0
          cases hcat : catalogLookup n with
          | some v => rfl
          | none => exact absurd (by simp [hcat]) hni

theorem ensureGo_ok_catalog :
    ∀ (vs : List JValue) (acc names : List String),
      ensureSoftwareGo vs acc = .ok names →
      (∀ n ∈ acc, (catalogLookup n).isSome = true) →
      ∀ n ∈ names, (catalogLookup n).isSome = true := by
  intro vs
  induction vs with
  | nil =>
    intro acc names h hacc
    cases h
    exact hacc
  | cons v vs ih =>
    intro acc names h hacc
    cases v with
    | str name =>
      simp only [ensureSoftwareGo] at h
      by_cases h0 : pyStrip name = ""
      · rw [if_pos h0] at h
        exact absurd h (by simp)
      · rw [if_neg h0] at h
        by_cases h1 : (catalogLookup (pyStrip name)).isNone
        · rw [if_pos h1] at h
          exact absurd h (by simp)
        · rw [if_neg h1] at h
          have hsome : (catalogLookup (pyStrip name)).isSome = true := by
            cases hcat : catalogLookup (pyStrip name) with
            | some v => rfl
            | none => exact absurd (by simp [hcat]) h1
          by_cases h2 : pyStrip name ∈ acc
          · rw [if_pos h2] at h
            exact ih acc names h hacc
          · rw [if_neg h2] at h
            refine ih _ names h ?_
            intro n hn
            rcases List.mem_append.mp hn with h3 | h3
            · exact hacc n h3
            · rw [List.mem_singleton.mp h3]
              exact hsome
    | null =>
      have hred : ensureSoftwareGo (JValue.null :: vs) acc =
          .error .softwareItemInvalid := rfl
      rw [hred] at h
      exact absurd h (by simp)
    | bool b =>
      have hred : ensureSoftwareGo (JValue.bool b :: vs) acc =
          .error .softwareItemInvalid := rfl
      rw [hred] at h
      exact absurd h (by simp)
    | int n =>
      have hred : ensureSoftwareGo (JValue.int n :: vs) acc =
          .error .softwareItemInvalid := rfl
      rw [hred] at h
      exact absurd h (by simp)
    | arr xs =>
      have hred : ensureSoftwareGo (JValue.arr xs :: vs) acc =
          .error .softwareItemInvalid := rfl
      rw [hred] at h
      exact absurd h (by simp)

theorem ensure_ok_catalog (v : Option JValue) (names : List String)
    (h : ensureSoftwareList v = .ok names) :
    ∀ n ∈ names, (catalogLookup n).isSome = true := by
  match v with
  | some (.arr xs) =>
    simp only [ensureSoftwareList] at h
    by_cases hx : xs.isEmpty
    · rw [if_pos hx] at h
      exact absurd h (by simp)
    · rw [if_neg hx] at h
      exact ensureGo_ok_catalog xs [] names h (by simp)
  | none =>
    rw [show ensureSoftwareList none = .error .softwareNotList from rfl] at h
    exact absurd h (by simp)
  | some .null =>
    rw [show ensureSoftwareList (some .null) = .error .softwareNotList from rfl] at h
    exact absurd h (by simp)
  | some (.bool b) =>
    rw [show ensureSoftwareList (some (.bool b)) = .error .softwareNotList from rfl] at h
    exact absurd h (by simp)
  | some (.int n) =>
    rw [show ensureSoftwareList (some (.int n)) = .error .softwareNotList from rfl] at h
    exact absurd h (by simp)
  | some (.str t) =>
    rw [show ensureSoftwareList (some (.str t)) = .error .softwareNotList from rfl] at h
    exact absurd h (by simp)

theorem lookupAll_total :
    ∀ (names : List String), (∀ n ∈ names, (catalogLookup n).isSome = true) →
      ∃ pkgs, lookupAllPackages names = .ok pkgs := by
  intro names
  induction names with
  | nil => exact fun _ => ⟨[], rfl⟩
  | cons n rest ih =>
    intro h
    obtain ⟨pkg, hpkg⟩ := Option.isSome_iff_exists.mp (h n (List.mem_cons_self n rest))
    obtain ⟨pkgs, hpkgs⟩ := ih (fun m hm => h m (List.mem_cons_of_mem _ hm))
    refine ⟨pkg :: pkgs, ?_⟩
    simp only [lookupAllPackages]
    rw [hpkg, hpkgs]

/-- Claim C10: for every request validated at selection time — by
resolve_software_list on delimited CLI strings or by
_ensure_software_list on JSON arrays — the catalog mapping step of
install succeeds on every name, i.e. the KeyError branch of the
SOFTWARE_CATALOG subscript is unreachable for validated requests. -/
theorem install_catalog_total :
    (∀ s names, resolveSoftwareList (some s) = .ok names →
      ∃ pkgs, lookupAllPackages names = .ok pkgs) ∧
    (∀ v names, ensureSoftwareList v = .ok names →
      ∃ pkgs, lookupAllPackages names = .ok pkgs) :=
  ⟨fun s names h => lookupAll_total names (resolve_ok_catalog s names h),
   fun v names h => lookupAll_total names (ensure_ok_catalog v names h)⟩

theorem selTokensOf_cons_empty {tok : String} (toks : List String)
    (h : pyStrip tok = "") : selTokensOf (tok :: toks) = selTokensOf toks := by
  simp [selTokensOf, h]

theorem selTokensOf_cons {tok : String} (toks : List String)
    (h : pyStrip tok ≠ "") :
    selTokensOf (tok :: toks) = pyStrip tok :: selTokensOf toks := by
  simp [selTokensOf, h]

theorem parseSelectionGo_ok_all (n : Nat) :
    ∀ (toks : List String) (picked : List Nat),
      (∀ t ∈ selTokensOf toks,
        pyIsDigitStr t = true ∧ 1 ≤ pyToNat t ∧ pyToNat t ≤ n) →
      parseSelectionGo n toks picked =
        .ok (List.eraseDups.loop ((selTokensOf toks).map pyToNat) picked.reverse) := by
  intro toks
  induction toks with
  | nil =>
    intro picked hgood
    simp [parseSelectionGo, selTokensOf, List.eraseDups.loop]
  | cons tok toks ih =>
    intro picked hgood
    by_cases ht : pyStrip tok = ""
    · rw [selTokensOf_cons_empty toks ht] at hgood ⊢
      simp only [parseSelectionGo]
      rw [if_pos ht]
      exact ih picked hgood
    · rw [selTokensOf_cons toks ht] at hgood ⊢
      obtain ⟨hd, h1, h2⟩ := hgood (pyStrip tok) (List.mem_cons_self _ _)
      simp only [parseSelectionGo]
      rw [if_neg ht, if_neg (by simp [hd])]
      rw [if_neg (by simp; omega)]
      by_cases hm : pyToNat (pyStrip tok) ∈ picked
      · rw [if_pos hm]
        rw [ih picked (fun t h => hgood t (List.mem_cons_of_mem _ h))]
        have helem : List.elem (pyToNat (pyStrip tok)) picked.reverse = true :=
          List.elem_iff.mpr (by simpa using hm)
        simp [List.eraseDups.loop, helem, hm]
      · rw [if_neg hm]
        rw [ih (picked ++ [pyToNat (pyStrip tok)])
          (fun t h => hgood t (List.mem_cons_of_mem _ h))]
        have helem : List.elem (pyToNat (pyStrip tok)) picked.reverse = false := by
          have hnm : ¬ pyToNat (pyStrip tok) ∈ picked.reverse := by simpa using hm
          simpa using hnm
        simp [List.eraseDups.loop, helem, hm]

theorem parseSelectionGo_ok_sound (n : Nat) :
    ∀ (toks : List String) (picked l : List Nat),
      parseSelectionGo n toks picked = .ok l →
      ∀ t ∈ selTokensOf toks,
        pyIsDigitStr t = true ∧ 1 ≤ pyToNat t ∧ pyToNat t ≤ n := by
  intro toks
  induction toks with
  | nil =>
    intro picked l _ t hmem
    simp [selTokensOf] at hmem
  | cons tok toks ih =>
    intro picked l h
    by_cases ht : pyStrip tok = ""
    · rw [selTokensOf_cons_empty toks ht]
      simp only [parseSelectionGo] at h
      rw [if_pos ht] at h
      exact ih picked l h
    · rw [selTokensOf_cons toks ht]
      simp only [parseSelectionGo] at h
      rw [if_neg ht] at h
      by_cases hd : pyIsDigitStr (pyStrip tok) = true
      · rw [if_neg (by simp [hd])] at h
        by_cases hr1 : pyToNat (pyStrip tok) < 1
        · rw [if_pos (by simp [hr1])] at h
          exact absurd h (by simp)
        · by_cases hr2 : pyToNat (pyStrip tok) > n
          · rw [if_pos (by simp [hr2])] at h
            exact absurd h (by simp)
          · rw [if_neg (by simp [hr1, hr2])] at h
            intro t hmem
            rcases List.mem_cons.mp hmem with rfl | hmem2
            · exact ⟨hd, by omega, by omega⟩
            · by_cases hm : pyToNat (pyStrip tok) ∈ picked
              · rw [if_pos hm] at h
                exact ih picked l h t hmem2
              · rw [if_neg hm] at h
                exact ih _ l h t hmem2
      · rw [if_pos (by simp [hd])] at h
        exact absurd h (by simp)

theorem parseSelectionGo_invalidToken (n : Nat) :
    ∀ (toks : List String) (picked : List Nat) (u : String),
      parseSelectionGo n toks picked = .error (.invalidToken u) →
      u ∈ selTokensOf toks ∧ pyIsDigitStr u = false := by
  intro toks
  induction toks with
  | nil =>
    intro picked u h
    exact absurd h (by simp [parseSelectionGo])
  | cons tok toks ih =>
    intro picked u h
    by_cases ht : pyStrip tok = ""
    · rw [selTokensOf_cons_empty toks ht]
      simp only [parseSelectionGo] at h
      rw [if_pos ht] at h
      exact ih picked u h
    · rw [selTokensOf_cons toks ht]
      simp only [parseSelectionGo] at h
      rw [if_neg ht] at h
      by_cases hd : pyIsDigitStr (pyStrip tok) = true
      · rw [if_neg (by simp [hd])] at h
        by_cases hr1 : pyToNat (pyStrip tok) < 1
        · rw [if_pos (by simp [hr1])] at h
          exact absurd h (by simp)
        · by_cases hr2 : pyToNat (pyStrip tok) > n
          · rw [if_pos (by simp [hr2])] at h
            exact absurd h (by simp)
          · rw [if_neg (by simp [hr1, hr2])] at h
            by_cases hm : pyToNat (pyStrip tok) ∈ picked
            · rw [if_pos hm] at h
              obtain ⟨hmem, hres⟩ := ih picked u h
              exact ⟨List.mem_cons_of_mem _ hmem, hres⟩
            · rw [if_neg hm] at h
              obtain ⟨hmem, hres⟩ := ih _ u h
              exact ⟨List.mem_cons_of_mem _ hmem, hres⟩
      · rw [if_pos (by simp [hd])] at h
        simp only [Except.error.injEq, Err.invalidToken.injEq] at h
        subst h
        exact ⟨List.mem_cons_self _ _, by simpa using hd⟩

theorem parseSelectionGo_outOfRange (n : Nat) :
    ∀ (toks : List String) (picked : List Nat) (i m : Nat),
      parseSelectionGo n toks picked = .error (.outOfRange i m) →
      m = n ∧ (∃ t ∈ selTokensOf toks, pyIsDigitStr t = true ∧ pyToNat t = i) ∧
        (i < 1 ∨ i > n) := by
  intro toks
  induction toks with
  | nil =>
    intro picked i m h
    exact absurd h (by simp [parseSelectionGo])
  | cons tok toks ih =>
    intro picked i m h
    by_cases ht : pyStrip tok = ""
    · rw [selTokensOf_cons_empty toks ht]
      simp only [parseSelectionGo] at h
      rw [if_pos ht] at h
      exact ih picked i m h
    · rw [selTokensOf_cons toks ht]
      simp only [parseSelectionGo] at h
      rw [if_neg ht] at h
      by_cases hd : pyIsDigitStr (pyStrip tok) = true
      · rw [if_neg (by simp [hd])] at h
        by_cases hrange : (pyToNat (pyStrip tok) < 1 ∨ pyToNat (pyStrip tok) > n)
        · rw [if_pos (by rcases hrange with h1 | h1 <;> simp [h1])] at h
          simp only [Except.error.injEq, Err.outOfRange.injEq] at h
          obtain ⟨rfl, rfl⟩ := h
          exact ⟨rfl, ⟨pyStrip tok, List.mem_cons_self _ _, hd, rfl⟩, hrange⟩
        · rw [if_neg (by push_neg at hrange; simp; omega)] at h
          by_cases hm : pyToNat (pyStrip tok) ∈ picked
          · rw [if_pos hm] at h
            obtain ⟨hm1, ⟨t, ht1, ht2⟩, hm3⟩ := ih picked i m h
            exact ⟨hm1, ⟨t, List.mem_cons_of_mem _ ht1, ht2⟩, hm3⟩
          · rw [if_neg hm] at h
            obtain ⟨hm1, ⟨t, ht1, ht2⟩, hm3⟩ := ih _ i m h
            exact ⟨hm1, ⟨t, List.mem_cons_of_mem _ ht1, ht2⟩, hm3⟩
      · rw [if_pos (by simp [hd])] at h
        exact absurd h (by simp)

/-- Claim C5: parse_selection splits on commas, trims, ignores empty
tokens; the three concrete behaviours of the claim hold; an input all
of whose effective tokens are digit literals in range yields exactly
the indices deduplicated in first-seen order; acceptance forces every
effective token to be a digit literal in range; an invalid-token
failure names a non-digit effective token of the input, and an
out-of-range failure names an index parsed from an effective token
lying outside the valid range. -/
theorem parseSelection_spec :
    parseSelection "1,3,1,2" 4 = .ok [1, 3, 2] ∧
    parseSelection "0" 3 = .error (.outOfRange 0 3) ∧
    parseSelection "x" 3 = .error (.invalidToken "x") ∧
    (∀ s n, (∀ t ∈ selTokens s,
        pyIsDigitStr t = true ∧ 1 ≤ pyToNat t ∧ pyToNat t ≤ n) →
      parseSelection s n = .ok (((selTokens s).map pyToNat).eraseDups)) ∧
    (∀ s n l, parseSelection s n = .ok l →
      ∀ t ∈ selTokens s, pyIsDigitStr t = true ∧ 1 ≤ pyToNat t ∧ pyToNat t ≤ n) ∧
    (∀ s n u, parseSelection s n = .error (.invalidToken u) →
      u ∈ selTokens s ∧ pyIsDigitStr u = false) ∧
    (∀ s n i m, parseSelection s n = .error (.outOfRange i m) →
      m = n ∧ (∃ t ∈ selTokens s, pyIsDigitStr t = true ∧ pyToNat t = i) ∧
        (i < 1 ∨ i > n)) := by
  refine ⟨rfl, rfl, rfl, ?_, ?_, ?_, ?_⟩
  · intro s n h
    have hall := parseSelectionGo_ok_all n (pySplitComma s) [] h
    simpa [parseSelection, selTokens, List.eraseDups] using hall
  · intro s n l h
    exact parseSelectionGo_ok_sound n (pySplitComma s) [] l h
  · intro s n u h
    exact parseSelectionGo_invalidToken n (pySplitComma s) [] u h
  · intro s n i m h
    exact parseSelectionGo_outOfRange n (pySplitComma s) [] i m h

theorem parseSelection_spec_witness :
    parseSelection "2,2" 3 = .ok (((selTokens "2,2").map pyToNat).eraseDups) ∧
    ((selTokens "2,2").map pyToNat).eraseDups = [2] :=
  ⟨parseSelection_spec.2.2.2.1 "2,2" 3 (by decide), by decide⟩

theorem uniqueLoop_eraseDups :
    ∀ (l acc : List String), uniqueLoop acc l = List.eraseDups.loop l acc.reverse := by
  intro l
  induction l with
  | nil => intro acc; simp [uniqueLoop, List.eraseDups.loop]
  | cons x xs ih =>
    intro acc
    by_cases hx : x ∈ acc
    · have helem : List.elem x acc.reverse = true :=
        List.elem_iff.mpr (by simpa using hx)
      simp only [uniqueLoop, if_pos hx]
      rw [ih acc]
      simp [List.eraseDups.loop, helem, hx]
    · have helem : List.elem x acc.reverse = false := by
        have hnm : ¬ x ∈ acc.reverse := by simpa using hx
        simpa using hnm
      simp only [uniqueLoop, if_neg hx]
      rw [ih (acc ++ [x])]
      simp [List.eraseDups.loop, helem, hx]

theorem uniqueLoop_nodup :
    ∀ (l acc : List String), acc.Nodup → (uniqueLoop acc l).Nodup := by
  intro l
  induction l with
  | nil => intro acc h; exact h
  | cons x xs ih =>
    intro acc h
    by_cases hx : x ∈ acc
    · simpa only [uniqueLoop, if_pos hx] using ih acc h
    · have hnext : (acc ++ [x]).Nodup := by simp [List.nodup_append, h, hx]
      simpa only [uniqueLoop, if_neg hx] using ih (acc ++ [x]) hnext

theorem resolve_ok_eq (s : String) (names : List String)
    (h : resolveSoftwareList (some s) = .ok names) :
    names = uniqueLoop [] (selTokens s) := by
  simp only [resolveSoftwareList] at h
  by_cases hs : s = ""
  · rw [if_pos hs] at h
    exact absurd h (by simp)
  · rw [if_neg hs] at h
    by_cases he : (((pySplitComma s).map pyStrip).filter (fun t => t ≠ "")).isEmpty
    · rw [if_pos he] at h
      exact absurd h (by simp)
    · rw [if_neg he] at h
      cases hi : ((((pySplitComma s).map pyStrip).filter (fun t => t ≠ "")).filter
          (fun name => (catalogLookup name).isNone)).isEmpty with
      | false =>
        rw [if_pos (by simp only [hi]; decide)] at h
        exact absurd h (by simp)
      | true =>
        rw [if_neg (by simp only [hi]; decide)] at h
        simp only [ResolveRes.ok.injEq] at h
        exact h.symm

theorem ensureGo_str_eq :
    ∀ (ss : List String) (acc names : List String),
      ensureSoftwareGo (ss.map .str) acc = .ok names →
      names = uniqueLoop acc (ss.map pyStrip) := by
  intro ss
  induction ss with
  | nil =>
    intro acc names h
    cases h
    rfl
  | cons t ss ih =>
    intro acc names h
    simp only [List.map_cons, ensureSoftwareGo] at h
    by_cases h0 : pyStrip t = ""
    · rw [if_pos h0] at h
      exact absurd h (by simp)
    · rw [if_neg h0] at h
      by_cases h1 : (catalogLookup (pyStrip t)).isNone
      · rw [if_pos h1] at h
        exact absurd h (by simp)
      · rw [if_neg h1] at h
        by_cases h2 : pyStrip t ∈ acc
        · rw [if_pos h2] at h
          rw [List.map_cons]
          simp only [uniqueLoop, if_pos h2]
          exact ih acc names h
        · rw [if_neg h2] at h
          rw [List.map_cons]
          simp only [uniqueLoop, if_neg h2]
          exact ih _ names h

theorem ensureGo_str_nonempty :
    ∀ (ss : List String) (acc names : List String),
      ensureSoftwareGo (ss.map .str) acc = .ok names →
      ∀ t ∈ ss, pyStrip t ≠ "" := by
  intro ss
  induction ss with
  | nil =>
    intro acc names _ t hmem
    exact absurd hmem (List.not_mem_nil t)
  | cons u ss ih =>
    intro acc names h t hmem
    simp only [List.map_cons, ensureSoftwareGo] at h
    by_cases h0 : pyStrip u = ""
    · rw [if_pos h0] at h
      exact absurd h (by simp)
    · rw [if_neg h0] at h
      by_cases h1 : (catalogLookup (pyStrip u)).isNone
      · rw [if_pos h1] at h
        exact absurd h (by simp)
      · rw [if_neg h1] at h
        rcases List.mem_cons.mp hmem with rfl | hmem2
        · exact h0
        · by_cases h2 : pyStrip u ∈ acc
          · rw [if_pos h2] at h
            exact ih acc names h t hmem2
          · rw [if_neg h2] at h
            exact ih _ names h t hmem2

/-- Claim C4 counterexample: the JSON-array resolver does not drop
empty entries after trimming — on a list holding "git" and "" it
raises the item-validation error instead of returning the
singleton "git"; and the empty CLI string enters the interactive
chooser rather than failing with the empty-selection error. -/
theorem resolveByName_empty_entry_cx :
    ensureSoftwareList (some (.arr [.str "git", .str ""])) =
      .error .softwareItemInvalid ∧
    ensureSoftwareList (some (.arr [.str "git", .str ""])) ≠ .ok ["git"] ∧
    resolveSoftwareList (some "") = .interactive :=
  ⟨rfl, by decide, rfl⟩

/-- Claim C4 amended: the CLI resolver trims entries, drops empty
ones, and returns the catalog-validated names deduplicated in
first-occurrence order (concretely "git,curl,git" gives git, curl);
a non-empty CLI string with no valid entries fails with the
no-valid-entries error rather than returning an empty list.  The JSON
resolver likewise returns the trimmed names deduplicated in
first-occurrence order, but an empty-after-trimming entry makes it
fail with a validation error instead of being dropped. -/
theorem resolveByName_spec :
    resolveSoftwareList (some "git,curl,git") = .ok ["git", "curl"] ∧
    (∀ s names, resolveSoftwareList (some s) = .ok names →
      names = (selTokens s).eraseDups ∧ names.Nodup) ∧
    (∀ s, s ≠ "" → selTokens s = [] →
      resolveSoftwareList (some s) = .err .noValidEntries) ∧
    (∀ (ss : List String) (names : List String),
      ensureSoftwareList (some (.arr (ss.map .str))) = .ok names →
      names = (ss.map pyStrip).eraseDups ∧ names.Nodup) ∧
    (∀ ss : List String, (∃ t ∈ ss, pyStrip t = "") →
      ∃ e, ensureSoftwareList (some (.arr (ss.map .str))) = .error e) := by
  refine ⟨by decide, ?_, ?_, ?_, ?_⟩
  · intro s names h
    have h1 := resolve_ok_eq s names h
    constructor
    · rw [h1, uniqueLoop_eraseDups]
      rfl
    · rw [h1]
      exact uniqueLoop_nodup _ [] List.nodup_nil
  · intro s hs h0
    simp only [resolveSoftwareList]
    rw [if_neg hs]
    have hre : (((pySplitComma s).map pyStrip).filter
        (fun t => t ≠ "")).isEmpty = true := by
      rw [show (((pySplitComma s).map pyStrip).filter (fun t => t ≠ "")) =
        selTokens s from rfl, h0]
      rfl
    rw [if_pos hre]
  · intro ss names h
    simp only [ensureSoftwareList] at h
    cases hmt : (ss.map JValue.str).isEmpty with
    | true =>
      rw [if_pos hmt] at h
      exact absurd h (by simp)
    | false =>
      rw [if_neg (by simp [hmt])] at h
      have h1 := ensureGo_str_eq ss [] names h
      constructor
      · rw [h1, uniqueLoop_eraseDups]
        rfl
      · rw [h1]
        exact uniqueLoop_nodup _ [] List.nodup_nil
  · rintro ss ⟨t, htm, hte⟩
    cases hres : ensureSoftwareList (some (.arr (ss.map .str))) with
    | error e => exact ⟨e, rfl⟩
    | ok names =>
      exfalso
      simp only [ensureSoftwareList] at hres
      cases hmt : (ss.map JValue.str).isEmpty with
      | true =>
        rw [if_pos hmt] at hres
        exact absurd hres (by simp)
      | false =>
        rw [if_neg (by simp [hmt])] at hres
        exact ensureGo_str_nonempty ss [] names hres t htm hte

theorem resolveByName_spec_witness :
    resolveSoftwareList (some "git, vim ,git,curl") =
      .ok ((selTokens "git, vim ,git,curl").eraseDups) ∧
    (selTokens "git, vim ,git,curl").eraseDups = ["git", "vim", "curl"] := by
  constructor
  · have h := resolveByName_spec.2.1 "git, vim ,git,curl" ["git", "vim", "curl"]
      (by decide)
    rw [show resolveSoftwareList (some "git, vim ,git,curl") =
      .ok ["git", "vim", "curl"] from by decide, h.1]
  · decide

theorem passwordShape_truthy (v : Option JValue) (pw : Option String)
    (h : passwordShape (getPy v) = .ok pw) :
    presentNonEmptyStr v = optTruthy v := by
  match v with
  | none => rfl
  | some .null => rfl
  | some (.str s) => rfl
  | some (.bool b) =>
    rw [show passwordShape (getPy (some (JValue.bool b))) =
      .error .passwordInvalid from rfl] at h
    exact absurd h (by simp)
  | some (.int n) =>
    rw [show passwordShape (getPy (some (JValue.int n))) =
      .error .passwordInvalid from rfl] at h
    exact absurd h (by simp)
  | some (.arr xs) =>
    rw [show passwordShape (getPy (some (JValue.arr xs))) =
      .error .passwordInvalid from rfl] at h
    exact absurd h (by simp)

theorem keyFileShape_truthy (v : Option JValue) (kf : Option String)
    (h : keyFileShape (getPy v) = .ok kf) :
    presentNonEmptyStr v = optTruthy v := by
  match v with
  | none => rfl
  | some .null => rfl
  | some (.str s) => rfl
  | some (.bool b) =>
    rw [show keyFileShape (getPy (some (JValue.bool b))) =
      .error .keyFileInvalid from rfl] at h
    exact absurd h (by simp)
  | some (.int n) =>
    rw [show keyFileShape (getPy (some (JValue.int n))) =
      .error .keyFileInvalid from rfl] at h
    exact absurd h (by simp)
  | some (.arr xs) =>
    rw [show keyFileShape (getPy (some (JValue.arr xs))) =
      .error .keyFileInvalid from rfl] at h
    exact absurd h (by simp)

theorem config_ok_exactlyOne (p : Payload) (x : SSHConfig × List String)
    (h : configFromPayload p = .ok x) :
    presentNonEmptyStr p.password ≠ presentNonEmptyStr p.key_file := by
  unfold configFromPayload at h
  cases h1 : strFieldCheck .hostRequired p.host with
  | error e => rw [h1] at h; exact absurd h (by simp)
  | ok host =>
    rw [h1] at h
    simp only [] at h
    cases h2 : strFieldCheck .usernameRequired p.username with
    | error e => rw [h2] at h; exact absurd h (by simp)
    | ok username =>
      rw [h2] at h
      simp only [] at h
      cases h3 : portCheck (p.port.getD (.int 22)) with
      | error e => rw [h3] at h; exact absurd h (by simp)
      | ok port =>
        rw [h3] at h
        simp only [] at h
        by_cases h4 : optTruthy p.password = optTruthy p.key_file
        · rw [if_pos h4] at h
          exact absurd h (by simp)
        · rw [if_neg h4] at h
          cases h5 : passwordShape (getPy p.password) with
          | error e => rw [h5] at h; exact absurd h (by simp)
          | ok pw =>
            rw [h5] at h
            simp only [] at h
            cases h6 : keyFileShape (getPy p.key_file) with
            | error e => rw [h6] at h; exact absurd h (by simp)
            | ok kf =>
              rw [passwordShape_truthy p.password pw h5,
                keyFileShape_truthy p.key_file kf h6]
              exact h4

/-- Claim C6: a validated payload always carries exactly one of
password and key_file as a present non-empty string; a payload
carrying both or neither fails validation with a
RequestValidationError; and no validation failure ever reaches the
connection step (the event trace is empty). -/
theorem configFromPayload_creds (p : Payload) :
    (∀ x, configFromPayload p = .ok x →
      presentNonEmptyStr p.password ≠ presentNonEmptyStr p.key_file) ∧
    (presentNonEmptyStr p.password = presentNonEmptyStr p.key_file →
      ∃ e, configFromPayload p = .error e) ∧
    (∀ (o : Oracle) (e : Err), configFromPayload p = .error e →
      (installFromPayload o p).1 = []) := by
  refine ⟨fun x h => config_ok_exactlyOne p x h, ?_, ?_⟩
  · intro heq
    cases hres : configFromPayload p with
    | error e => exact ⟨e, rfl⟩
    | ok x => exact absurd heq (config_ok_exactlyOne p x hres)
  · intro o e h
    unfold installFromPayload
    rw [h]

theorem configFromPayload_creds_witness :
    ∃ e, configFromPayload ⟨some (.str "h"), some (.str "u"), none,
      some (.str "p"), some (.str "k"), some (.arr [.str "git"])⟩ = .error e :=
  (configFromPayload_creds _).2.1 (by decide)

theorem portCheck_ok (v : JValue) (n : Int) (h : portCheck v = .ok n) :
    v.asInt = some n ∧ 0 < n := by
  unfold portCheck at h
  cases hv : v.asInt with
  | none => rw [hv] at h; exact absurd h (by simp)
  | some m =>
    rw [hv] at h
    simp only [] at h
    by_cases hm : m ≤ 0
    · rw [if_pos hm] at h
      exact absurd h (by simp)
    · rw [if_neg hm] at h
      simp only [Except.ok.injEq] at h
      subst h
      exact ⟨rfl, by omega⟩

theorem config_ok_port (p : Payload) (x : SSHConfig × List String)
    (h : configFromPayload p = .ok x) :
    ∃ n : Int, (p.port.getD (.int 22)).asInt = some n ∧ 0 < n ∧ x.1.port = n := by
  unfold configFromPayload at h
  cases h1 : strFieldCheck .hostRequired p.host with
  | error e => rw [h1] at h; exact absurd h (by simp)
  | ok host =>
    rw [h1] at h
    simp only [] at h
    cases h2 : strFieldCheck .usernameRequired p.username with
    | error e => rw [h2] at h; exact absurd h (by simp)
    | ok username =>
      rw [h2] at h
      simp only [] at h
      cases h3 : portCheck (p.port.getD (.int 22)) with
      | error e => rw [h3] at h; exact absurd h (by simp)
      | ok port =>
        rw [h3] at h
        simp only [] at h
        obtain ⟨hint, hpos⟩ := portCheck_ok _ port h3
        by_cases h4 : optTruthy p.password = optTruthy p.key_file
        · rw [if_pos h4] at h
          exact absurd h (by simp)
        · rw [if_neg h4] at h
          cases h5 : passwordShape (getPy p.password) with
          | error e => rw [h5] at h; exact absurd h (by simp)
          | ok pw =>
            rw [h5] at h
            simp only [] at h
            cases h6 : keyFileShape (getPy p.key_file) with
            | error e => rw [h6] at h; exact absurd h (by simp)
            | ok kf =>
              rw [h6] at h
              simp only [] at h
              cases h7 : ensureSoftwareList p.software with
              | error e => rw [h7] at h; exact absurd h (by simp)
              | ok names =>
                rw [h7] at h
                simp only [Except.ok.injEq] at h
                subst h
                exact ⟨port, hint, hpos, rfl⟩

/-- Claim C7 counterexample: the validator accepts port 65536, which
the claim says must be rejected as above 65535 — the source only
checks that the port is a positive integer. -/
theorem configFromPayload_port_cx :
    configFromPayload ⟨some (.str "h"), some (.str "u"), some (.int 65536),
      some (.str "p"), none, some (.arr [.str "git"])⟩ =
      .ok (⟨"h", "u", some "p", none, 65536⟩, ["git"]) := rfl

/-- Claim C7 amended: the validator accepts the port only if it is
integer-typed (Python treats booleans as integers) and strictly
positive, with 22 as the default for a missing key; zero, negative and
non-integer ports are rejected with a validation error, no connection
is attempted after a validation error, and no upper bound is
enforced. -/
theorem configFromPayload_port (p : Payload) :
    (∀ x, configFromPayload p = .ok x →
      ∃ n : Int, (p.port.getD (.int 22)).asInt = some n ∧ 0 < n ∧ x.1.port = n) ∧
    (((p.port.getD (.int 22)).asInt = none ∨
      (∃ n, (p.port.getD (.int 22)).asInt = some n ∧ n ≤ 0)) →
      ∃ e, configFromPayload p = .error e) ∧
    (∀ (o : Oracle) (e : Err), configFromPayload p = .error e →
      (installFromPayload o p).1 = []) := by
  refine ⟨fun x h => config_ok_port p x h, ?_, ?_⟩
  · intro hbad
    cases hres : configFromPayload p with
    | error e => exact ⟨e, rfl⟩
    | ok x =>
      obtain ⟨n, hn, hpos, _⟩ := config_ok_port p x hres
      rcases hbad with hnone | ⟨m, hm, hle⟩
      · rw [hn] at hnone
        exact absurd hnone (by simp)
      · rw [hn] at hm
        simp only [Option.some.injEq] at hm
        omega
  · intro o e h
    unfold installFromPayload
    rw [h]

theorem configFromPayload_port_witness :
    ∃ e, configFromPayload ⟨some (.str "h"), some (.str "u"), some (.int 0),
      some (.str "p"), none, some (.arr [.str "git"])⟩ = .error e :=
  (configFromPayload_port _).2.1 (Or.inr ⟨0, rfl, by decide⟩)

theorem installFromPayload_close_once_witness :
    (installFromPayload wOracle wPayload).1.count Event.close = 1 ∧
    (installFromPayload wOracle wPayload).1.getLast? = some Event.close :=
  installFromPayload_close_once wOracle wPayload
    (⟨"10.0.0.1", "ubuntu", some "secret", none, 22⟩, ["git", "curl"]) rfl rfl

theorem installCmdCore_words_witness :
    shellSplit ((installCmdCore "apt" ["git", "a b"]).getD "") =
      some (managerPrefixWords "apt" ++ ["git", "a b"]) ∧
    (installCmdCore "apt" ["git", "a b"]).getD "" =
      "DEBIAN_FRONTEND=noninteractive apt-get update && " ++
        "DEBIAN_FRONTEND=noninteractive apt-get install -y git " ++ "'a b'" :=
  ⟨installCmdCore_words "apt" ["git", "a b"]
    ((installCmdCore "apt" ["git", "a b"]).getD "") rfl, by decide⟩

theorem detectPackageManager_spec_witness :
    RemoteInstaller.detectPackageManager wProbeOracle =
      ([.exec probeScript],
        match pmPriority.find? (fun pr => wHas pr.1) with
        | some pr => .ok pr.2
        | none => .error .unsupportedDistribution) ∧
    (match pmPriority.find? (fun pr => wHas pr.1) with
      | some pr => (.ok pr.2 : Except Err String)
      | none => .error .unsupportedDistribution) = .ok "yum" :=
  ⟨detectPackageManager_spec wProbeOracle wHas rfl (by decide), by decide⟩

theorem install_commandFailed_witness :
    (RemoteInstaller.install wFailOracle wCfg ["git"]).1 =
      [.exec probeScript, .exec wCmd] ∧
    (RemoteInstaller.install wFailOracle wCfg ["git"]).2 =
      .error (.commandFailed 1 wCmd "err" "out") := by
  have h := install_commandFailed wFailOracle wCfg ["git"] "apt" ["git"] wCmd
    rfl rfl rfl (by decide) rfl rfl
  exact ⟨h.1, (h.2.1 (by decide)).trans (by decide)⟩

theorem install_catalog_total_witness :
    ∃ pkgs, lookupAllPackages ["git", "docker"] = .ok pkgs :=
  install_catalog_total.1 "git,docker" ["git", "docker"] (by decide)
